import Mathlib

/-!
Verification development for the sound-level alarm program (sound_alarm.py).

The program samples 16-bit audio, estimates a dB level, and fires an alarm
when the level exceeds a threshold subject to a cooldown.  The definitions
below are a shallow embedding of the numeric and state-machine core:

* `wrap16` / `wrapSquare` / `squareSum` / `estimate` embed `_get_db_level`
  lines 88-106: `np.frombuffer(data, dtype=np.int16)` gives signed 16-bit
  samples; `np.square` on an int16 array squares each sample in int16
  arithmetic, wrapping modulo 2^16; `np.mean` then averages those wrapped
  squares in float64 (modelled as the exact rational mean); the dB pipeline
  `20*log10(max(rms,1)/32767)`, offset `96 +`, and final `max(0, _)` are
  carried out over the reals.
* `toInt16` / `decodeInt16` / `getDbLevel` embed the byte-level front end of
  `_get_db_level`: the raw byte buffer is reinterpreted as little-endian
  int16 samples; `np.frombuffer` raises (caught by the `except` branch,
  which prints the error and returns 0) exactly when the byte length is not
  a multiple of 2; the code performs no other length check.
* `AlarmState` / `initState` / `shouldTrigger` / `runCycle` / `runCycles`
  embed the alarm fields set in `__init__` (threshold_db=70,
  cooldown_time=3.0, last_alarm_time=0) and the per-cycle decision of
  `_monitor_loop` lines 72-78: fire iff `current_db > threshold_db` and
  `now - last_alarm_time > cooldown_time`, updating `last_alarm_time := now`
  on fire only.  Times and dB values are modelled as exact rationals.
* `Cmd` / `applyCmd` / `applyCmds` embed the setters `set_threshold` and
  `set_cooldown`, which assign their argument without validation.
* `retainedReadings` / `calibrateReadings` / `calculate_ambient_noise` embed
  `calculate_ambient_noise` lines 164-186: fail (return None) if the stream
  is not open, collect readings, keep those with `db > 0`, fail if none
  remain, otherwise return their arithmetic mean; the alarm state is never
  written.
-/

namespace SoundAlarm

/-- Default `chunk_size` from `SoundLevelAlarm.__init__` (frames per buffer). -/
def chunk_size : ℕ := 1024

/-- Reduce an integer to the signed 16-bit value with the same residue
modulo 2^16, i.e. into `[-32768, 32767]`: the semantics of numpy int16
overflow. -/
def wrap16 (x : ℤ) : ℤ := (x + 32768) % 65536 - 32768

/-- `np.square` applied to one int16 sample: the square computed in int16
arithmetic, wrapping modulo 2^16. -/
def wrapSquare (x : ℤ) : ℤ := wrap16 (x * x)

/-- `square_sum = np.mean(np.square(audio_data))` (line 92): the exact
rational mean of the wrapped squares.  (Lean convention: division by zero
yields 0, so the empty buffer gets mean 0 and is handled by the
`square_sum <= 0` branch of `estimate`.) -/
def squareSum (l : List ℤ) : ℚ := ((l.map wrapSquare).sum : ℚ) / (l.length : ℚ)

/-- The dB computation of `_get_db_level` lines 92-106, applied to a decoded
sample buffer: if the mean wrapped square is `≤ 0` return 0; otherwise
`rms = sqrt(square_sum)`, `db = 20*log10(max(rms,1)/32767)`, and the result
is `max(0, 96 + db)`. -/
noncomputable def estimate (l : List ℤ) : ℝ :=
  if squareSum l ≤ 0 then 0
  else max 0 (96 + 20 * Real.logb 10 (max (Real.sqrt ((squareSum l : ℚ) : ℝ)) 1 / 32767))

/-- Reinterpret an unsigned 16-bit value as a signed int16 (two's
complement), as `np.int16` does. -/
def toInt16 (n : ℕ) : ℤ := if n < 32768 then (n : ℤ) else (n : ℤ) - 65536

/-- `np.frombuffer(data, dtype=np.int16)` on an even-length byte string:
consecutive little-endian byte pairs become int16 samples. -/
def decodeInt16 : List ℕ → List ℤ
  | b0 :: b1 :: rest => toInt16 (b0 + 256 * b1) :: decodeInt16 rest
  | _ => []

/-- `_get_db_level` from the raw byte buffer onward: `np.frombuffer` raises
exactly when the byte length is odd, in which case the `except` branch
prints the error and returns 0 (second component `true` = error reported);
otherwise the decoded samples go through the dB pipeline and no error is
reported.  The code performs no other length check. -/
noncomputable def getDbLevel (data : List ℕ) : ℝ × Bool :=
  if data.length % 2 = 0 then (estimate (decodeInt16 data), false) else (0, true)

/-- The mutable alarm fields of `SoundLevelAlarm` that the monitor loop and
the setters read and write. -/
structure AlarmState where
  threshold_db : ℚ
  cooldown_time : ℚ
  last_alarm_time : ℚ
deriving DecidableEq

/-- The fields as set by `__init__` with default arguments:
`threshold_db=70`, `cooldown_time=3.0`, `last_alarm_time=0` (line 38). -/
def initState : AlarmState :=
  { threshold_db := 70, cooldown_time := 3, last_alarm_time := 0 }

/-- The alarm-fire condition of one `_monitor_loop` cycle (line 75):
`current_db > threshold_db and (now - last_alarm_time) > cooldown_time`. -/
def shouldTrigger (db now : ℚ) (s : AlarmState) : Bool :=
  decide (s.threshold_db < db) && decide (s.cooldown_time < now - s.last_alarm_time)

/-- One monitor-loop cycle given the current dB reading and the current
time: if the alarm fires, `last_alarm_time` is set to `now` (line 78);
otherwise the state is untouched.  Returns (fired?, new state). -/
def runCycle (s : AlarmState) (db now : ℚ) : Bool × AlarmState :=
  if shouldTrigger db now s then (true, { s with last_alarm_time := now })
  else (false, s)

/-- Run the monitor loop over a list of (dB reading, time) pairs, returning
the list of fire decisions and the final state. -/
def runCycles : AlarmState → List (ℚ × ℚ) → List Bool × AlarmState
  | s, [] => ([], s)
  | s, (db, t) :: rest =>
    let r := runCycle s db t
    let rest2 := runCycles r.2 rest
    (r.1 :: rest2.1, rest2.2)

/-- A foreground setter call: `set_threshold` or `set_cooldown`. -/
inductive Cmd where
  | setThreshold (q : ℚ)
  | setCooldown (q : ℚ)

/-- The numeric argument of a setter call. -/
def Cmd.arg : Cmd → ℚ
  | .setThreshold q => q
  | .setCooldown q => q

/-- `set_threshold` / `set_cooldown`: assign the given value to the field,
with no validation (lines 154-162). -/
def applyCmd (s : AlarmState) : Cmd → AlarmState
  | .setThreshold q => { s with threshold_db := q }
  | .setCooldown q => { s with cooldown_time := q }

/-- Apply a sequence of setter calls in order. -/
def applyCmds (s : AlarmState) (cs : List Cmd) : AlarmState := cs.foldl applyCmd s

/-- The readings kept by calibration: `if db > 0: db_values.append(db)`
(line 176). -/
def retainedReadings (l : List ℚ) : List ℚ := l.filter (fun db => decide (0 < db))

/-- The tail of `calculate_ambient_noise`: fail (None) if no readings were
retained, otherwise the arithmetic mean `sum(db_values)/len(db_values)`. -/
def calibrateReadings (l : List ℚ) : Option ℚ :=
  let vs := retainedReadings l
  if vs.isEmpty then none else some (vs.sum / (vs.length : ℚ))

/-- `calculate_ambient_noise` as a whole, over the stream-open flag, the
stream of dB readings observed during the window, and the alarm state: if
the stream is not open, fail immediately (before consuming any reading);
otherwise filter and average.  The alarm state is returned unchanged on
every path — the method never writes it. -/
def calculate_ambient_noise (streamOpen : Bool) (l : List ℚ) (s : AlarmState) :
    Option ℚ × AlarmState :=
  if streamOpen then (calibrateReadings l, s) else (none, s)

lemma wrap16_le (x : ℤ) : wrap16 x ≤ 32767 := by
  have h := Int.emod_lt_of_pos (x + 32768) (by norm_num : (0:ℤ) < 65536)
  unfold wrap16; omega

lemma wrap16_ge (x : ℤ) : -32768 ≤ wrap16 x := by
  have h := Int.emod_nonneg (x + 32768) (by norm_num : (65536:ℤ) ≠ 0)
  unfold wrap16; omega

lemma wrapSquare_le (x : ℤ) : wrapSquare x ≤ 32767 := wrap16_le _

lemma sum_map_wrapSquare_le (l : List ℤ) :
    (l.map wrapSquare).sum ≤ 32767 * (l.length : ℤ) := by
  induction l with
  | nil => simp
  | cons a t ih =>
    have ha := wrapSquare_le a
    simp only [List.map_cons, List.sum_cons, List.length_cons]
    push_cast
    linarith

lemma squareSum_nil : squareSum [] = 0 := by simp [squareSum]

lemma squareSum_le (l : List ℤ) : squareSum l ≤ 32767 := by
  rcases l with _ | ⟨a, t⟩
  · rw [squareSum_nil]; norm_num
  · have hlen : (0:ℚ) < ((a :: t).length : ℚ) := by
      simp only [List.length_cons]
      positivity
    rw [squareSum, div_le_iff₀ hlen]
    have hsum := sum_map_wrapSquare_le (a :: t)
    calc ((((a :: t).map wrapSquare).sum : ℤ) : ℚ)
        ≤ ((32767 * ((a :: t).length : ℤ) : ℤ) : ℚ) := by exact_mod_cast hsum
      _ = 32767 * ((a :: t).length : ℚ) := by push_cast; ring

lemma estimate_of_nonpos {l : List ℤ} (h : squareSum l ≤ 0) : estimate l = 0 := by
  rw [estimate, if_pos h]

lemma estimate_bounds (l : List ℤ) : 0 ≤ estimate l ∧ estimate l ≤ 96 := by
  by_cases hss : squareSum l ≤ 0
  · rw [estimate_of_nonpos hss]; norm_num
  · rw [estimate, if_neg hss]
    constructor
    · exact le_max_left 0 _
    · apply max_le (by norm_num)
      have hx0 : (0:ℝ) ≤ max (Real.sqrt ((squareSum l : ℚ) : ℝ)) 1 / 32767 := by positivity
      have hx1 : max (Real.sqrt ((squareSum l : ℚ) : ℝ)) 1 / 32767 ≤ 1 := by
        rw [div_le_one (by norm_num : (0:ℝ) < 32767)]
        apply max_le _ (by norm_num)
        rw [Real.sqrt_le_left (by norm_num : (0:ℝ) ≤ 32767)]
        have h1 : squareSum l ≤ 32767 := squareSum_le l
        calc ((squareSum l : ℚ) : ℝ) ≤ ((32767 : ℚ) : ℝ) := by exact_mod_cast h1
          _ ≤ 32767 ^ 2 := by norm_num
      have hlog := Real.logb_nonpos (by norm_num : (1:ℝ) < 10) hx0 hx1
      linarith

lemma wrapSquare_fullscale {x : ℤ} (h : x = 32767 ∨ x = -32767) : wrapSquare x = 1 := by
  rcases h with rfl | rfl <;> decide

lemma squareSum_fullscale {l : List ℤ} (hne : l ≠ [])
    (h : ∀ x ∈ l, x = 32767 ∨ x = -32767) : squareSum l = 1 := by
  have hmap : l.map wrapSquare = List.replicate l.length 1 := by
    apply List.eq_replicate_iff.mpr
    refine ⟨by simp, ?_⟩
    intro b hb
    obtain ⟨x, hx, rfl⟩ := List.mem_map.mp hb
    exact wrapSquare_fullscale (h x hx)
  have hlen : (l.length : ℚ) ≠ 0 := by
    rcases l with _ | ⟨a, t⟩
    · exact absurd rfl hne
    · simp only [List.length_cons]
      push_cast
      positivity
  rw [squareSum, hmap, List.sum_replicate]
  push_cast [nsmul_eq_mul, mul_one]
  exact div_self hlen

lemma estimate_fullscale {l : List ℤ} (hne : l ≠ [])
    (h : ∀ x ∈ l, x = 32767 ∨ x = -32767) :
    estimate l = max 0 (96 - 20 * Real.logb 10 32767) := by
  have hss : squareSum l = 1 := squareSum_fullscale hne h
  rw [estimate, if_neg (by rw [hss]; norm_num), hss]
  have h1 : (((1 : ℚ)) : ℝ) = (1 : ℝ) := by norm_num
  rw [h1, Real.sqrt_one, max_self, one_div, Real.logb_inv]
  congr 1
  ring

lemma squareSum_all256 {l : List ℤ} (h : ∀ x ∈ l, x = 256) : squareSum l = 0 := by
  have hmap : l.map wrapSquare = List.replicate l.length 0 := by
    apply List.eq_replicate_iff.mpr
    refine ⟨by simp, ?_⟩
    intro b hb
    obtain ⟨x, hx, rfl⟩ := List.mem_map.mp hb
    rw [h x hx]; decide
  rw [squareSum, hmap, List.sum_replicate]
  simp

/-- Claim C1: for every valid 16-bit audio buffer (each sample in
[-32768, 32767]), the level estimator returns a dB value in the closed
interval [0, 96]. -/
theorem estimate_in_range (l : List ℤ)
    (h : ∀ x ∈ l, -32768 ≤ x ∧ x ≤ 32767) :
    0 ≤ estimate l ∧ estimate l ≤ 96 :=
  estimate_bounds l

theorem estimate_in_range_witness :
    0 ≤ estimate [100, -200, 32767] ∧ estimate [100, -200, 32767] ≤ 96 :=
  estimate_in_range [100, -200, 32767] (by decide)

/-- Claim C2, counterexample: on the single-sample full-scale buffer
[32767] the estimator does not return 96 — the int16 squaring wraps
32767^2 to 1, so the pipeline yields max 0 (96 - 20*log10 32767), about
5.69, not 96. -/
theorem estimate_fullscale_ne : estimate [32767] ≠ 96 := by
  have h := estimate_fullscale (l := [32767]) (by simp) (by decide)
  rw [h]
  have hL : 0 < Real.logb 10 32767 :=
    Real.logb_pos (by norm_num) (by norm_num)
  have hlt : max 0 (96 - 20 * Real.logb 10 32767) < 96 :=
    max_lt (by norm_num) (by linarith)
  exact ne_of_lt hlt

/-- Claim C2, amended: for a nonempty full-scale buffer (every sample
+32767 or -32767), the wraparound squaring gives mean-square power 1,
and the pipeline returns max 0 (96 - 20*log10 32767) (about 5.69),
which is strictly below 96. -/
theorem estimate_fullscale_val (l : List ℤ) (hne : l ≠ [])
    (h : ∀ x ∈ l, x = 32767 ∨ x = -32767) :
    estimate l = max 0 (96 - 20 * Real.logb 10 32767) ∧ estimate l < 96 := by
  have he := estimate_fullscale hne h
  have hL : 0 < Real.logb 10 32767 :=
    Real.logb_pos (by norm_num) (by norm_num)
  exact ⟨he, he ▸ max_lt (by norm_num) (by linarith)⟩

theorem estimate_fullscale_val_witness :
    estimate [32767, -32767] = max 0 (96 - 20 * Real.logb 10 32767) ∧
    estimate [32767, -32767] < 96 :=
  estimate_fullscale_val [32767, -32767] (by simp) (by decide)

/-- Claim C10: because the per-sample squaring wraps modulo 2^16, there
are nonzero buffers whose computed mean-square power is nonpositive and
on which the estimator returns 0; in particular every buffer whose
samples all equal 256 (256^2 wraps to 0) yields exactly 0. -/
theorem estimate_wraparound_zero :
    (∃ l : List ℤ, l ≠ [] ∧ (∀ x ∈ l, x ≠ 0) ∧ squareSum l ≤ 0 ∧ estimate l = 0) ∧
    (∀ l : List ℤ, (∀ x ∈ l, x = 256) → estimate l = 0) := by
  have hall : ∀ l : List ℤ, (∀ x ∈ l, x = 256) → estimate l = 0 := by
    intro l h
    exact estimate_of_nonpos (le_of_eq (squareSum_all256 h))
  refine ⟨⟨[256], by simp, by decide, ?_, hall [256] (by decide)⟩, hall⟩
  exact le_of_eq (squareSum_all256 (by decide))

theorem estimate_wraparound_zero_witness :
    estimate [256, 256, 256] = 0 :=
  estimate_wraparound_zero.2 [256, 256, 256] (by decide)

lemma shouldTrigger_false_of_le {db : ℚ} (now : ℚ) {s : AlarmState}
    (h : db ≤ s.threshold_db) : shouldTrigger db now s = false := by
  unfold shouldTrigger
  rw [decide_eq_false (not_lt.mpr h), Bool.false_and]

lemma runCycle_of_no_trigger {s : AlarmState} {db now : ℚ}
    (h : shouldTrigger db now s = false) : runCycle s db now = (false, s) := by
  rw [runCycle, if_neg (by simp [h])]

/-- Claim C3: the alarm-fire decision of one monitor-loop cycle holds
iff currentDb > threshold_db and now - last_alarm_time > cooldown_time,
both comparisons strict; it is false at either boundary (reading equal
to the threshold, or elapsed time equal to the cooldown). -/
theorem trigger_rule (db now : ℚ) (s : AlarmState) :
    (shouldTrigger db now s = true ↔
      s.threshold_db < db ∧ s.cooldown_time < now - s.last_alarm_time) ∧
    (db = s.threshold_db → shouldTrigger db now s = false) ∧
    (now - s.last_alarm_time = s.cooldown_time → shouldTrigger db now s = false) := by
  refine ⟨by simp [shouldTrigger], ?_, ?_⟩
  · intro h; simp [shouldTrigger, h]
  · intro h; simp [shouldTrigger, h]

theorem trigger_rule_witness :
    shouldTrigger 70 100 initState = false ∧ shouldTrigger 80 3 initState = false :=
  ⟨(trigger_rule 70 100 initState).2.1 rfl,
   (trigger_rule 80 3 initState).2.2 (by norm_num [initState])⟩

/-- Claim C4, counterexample: from the freshly initialized state
(last_alarm_time = 0 per line 38, threshold 70, cooldown 3), the
readings [65, 75, 76, 50] at times 0, 1, 2, 3 fire the alarm zero
times, not once: at t = 1 the elapsed time 1 - 0 is not greater than
the cooldown 3, so the 75 dB reading is suppressed. -/
theorem scenario_at_0123_never_fires :
    (runCycles initState [(65, 0), (75, 1), (76, 2), (50, 3)]).1 =
      [false, false, false, false] ∧
    ((runCycles initState [(65, 0), (75, 1), (76, 2), (50, 3)]).1.count true = 0) := by
  norm_num [runCycles, runCycle, shouldTrigger, initState, List.count]

/-- Claim C4, amended: the initial last_alarm_time is 0 (the code uses
wall-clock time, for which 0 is effectively "never"), so the scenario
holds once the poll times exceed the initial timestamp by more than the
cooldown: readings [65, 75, 76, 50] at times 10, 11, 12, 13 fire the
alarm exactly once, at t = 11 (the 75 dB reading), which also updates
last_alarm_time to 11. -/
theorem scenario_shifted_fires_once :
    (runCycles initState [(65, 10), (75, 11), (76, 12), (50, 13)]).1 =
      [false, true, false, false] ∧
    (runCycles initState [(65, 10), (75, 11), (76, 12), (50, 13)]).2.last_alarm_time = 11 := by
  norm_num [runCycles, runCycle, shouldTrigger, initState]

/-- Claim C5: a monitor-loop cycle in which the alarm does not fire
leaves the alarm state — in particular last_alarm_time — unchanged;
consequently any run of cycles whose readings are all at or below the
threshold (e.g. ten of them, see the witness) fires nothing and leaves
the state exactly as it was. -/
theorem no_fire_frame :
    (∀ (s : AlarmState) (db now : ℚ),
      (runCycle s db now).1 = false → (runCycle s db now).2 = s) ∧
    (∀ (s : AlarmState) (l : List (ℚ × ℚ)),
      (∀ p ∈ l, p.1 ≤ s.threshold_db) →
      runCycles s l = (List.replicate l.length false, s)) := by
  constructor
  · intro s db now h
    by_cases ht : shouldTrigger db now s
    · rw [runCycle, if_pos ht] at h
      simp at h
    · rw [runCycle, if_neg ht]
  · intro s l
    induction l with
    | nil => intro _; simp [runCycles]
    | cons p rest ih =>
      intro h
      obtain ⟨db, t⟩ := p
      have hdb : db ≤ s.threshold_db := h (db, t) (List.mem_cons_self _ _)
      have hrest : ∀ q ∈ rest, q.1 ≤ s.threshold_db :=
        fun q hq => h q (List.mem_cons_of_mem _ hq)
      have hrc : runCycle s db t = (false, s) :=
        runCycle_of_no_trigger (shouldTrigger_false_of_le t hdb)
      simp [runCycles, hrc, ih hrest, List.replicate_succ]

theorem no_fire_frame_witness :
    runCycles initState
      [(65, 0), (65, 1), (65, 2), (65, 3), (65, 4),
       (65, 5), (65, 6), (65, 7), (65, 8), (65, 9)] =
      (List.replicate 10 false, initState) :=
  no_fire_frame.2 initState _ (by norm_num [initState])

lemma applyCmd_nonneg {s : AlarmState}
    (hs : 0 ≤ s.threshold_db ∧ 0 ≤ s.cooldown_time) (c : Cmd) (hc : 0 ≤ c.arg) :
    0 ≤ (applyCmd s c).threshold_db ∧ 0 ≤ (applyCmd s c).cooldown_time := by
  cases c with
  | setThreshold q => exact ⟨hc, hs.2⟩
  | setCooldown q => exact ⟨hs.1, hc⟩

lemma applyCmds_nonneg {s : AlarmState}
    (hs : 0 ≤ s.threshold_db ∧ 0 ≤ s.cooldown_time) (cs : List Cmd)
    (h : ∀ c ∈ cs, 0 ≤ c.arg) :
    0 ≤ (applyCmds s cs).threshold_db ∧ 0 ≤ (applyCmds s cs).cooldown_time := by
  induction cs generalizing s with
  | nil => simpa [applyCmds]
  | cons c rest ih =>
    have hc := h c (List.mem_cons_self _ _)
    have hrest : ∀ d ∈ rest, 0 ≤ d.arg := fun d hd => h d (List.mem_cons_of_mem _ hd)
    rw [applyCmds, List.foldl_cons]
    exact ih (applyCmd_nonneg hs c hc) hrest

/-- Claim C6, counterexample: set_threshold performs no validation, so
the reachable state after the single call set_threshold(-1) has a
negative threshold_db. -/
theorem setter_negative_threshold :
    (applyCmds initState [Cmd.setThreshold (-1)]).threshold_db < 0 := by
  norm_num [applyCmds, applyCmd, initState]

/-- Claim C6, amended: the freshly initialized state has non-negative
threshold_db (70) and cooldown_time (3), and since the setters assign
their argument unvalidated, every state reached by a sequence of setter
calls whose arguments are all non-negative again has non-negative
threshold_db and cooldown_time (finiteness is automatic in the exact
rational model). -/
theorem reachable_nonneg (cs : List Cmd) (h : ∀ c ∈ cs, 0 ≤ c.arg) :
    (0 ≤ initState.threshold_db ∧ 0 ≤ initState.cooldown_time) ∧
    0 ≤ (applyCmds initState cs).threshold_db ∧
    0 ≤ (applyCmds initState cs).cooldown_time := by
  have hinit : 0 ≤ initState.threshold_db ∧ 0 ≤ initState.cooldown_time := by
    norm_num [initState]
  exact ⟨hinit, applyCmds_nonneg hinit cs h⟩

theorem reachable_nonneg_witness :
    (0 ≤ initState.threshold_db ∧ 0 ≤ initState.cooldown_time) ∧
    0 ≤ (applyCmds initState [Cmd.setThreshold 80, Cmd.setCooldown 5]).threshold_db ∧
    0 ≤ (applyCmds initState [Cmd.setThreshold 80, Cmd.setCooldown 5]).cooldown_time :=
  reachable_nonneg [Cmd.setThreshold 80, Cmd.setCooldown 5]
    (by intro c hc; fin_cases hc <;> norm_num [Cmd.arg])

lemma retainedReadings_replicate {v : ℚ} (hv : 0 < v) (n : ℕ) :
    retainedReadings (List.replicate n v) = List.replicate n v := by
  apply List.filter_eq_self.mpr
  intro a ha
  rw [List.eq_of_mem_replicate ha]
  exact decide_eq_true hv

/-- Claim C7: over any stream of non-negative readings (as produced by
the estimator), calibration retains exactly the readings that are not
0, and when at least one reading is retained it returns their
arithmetic mean; in particular over a stream of readings all equal to
one fixed positive value it returns exactly that value. -/
theorem calibration_mean :
    (∀ l : List ℚ, (∀ x ∈ l, 0 ≤ x) →
      retainedReadings l = l.filter (fun x => decide (x ≠ 0)) ∧
      (retainedReadings l ≠ [] →
        calibrateReadings l =
          some ((retainedReadings l).sum / ((retainedReadings l).length : ℚ)))) ∧
    (∀ (v : ℚ) (n : ℕ), 0 < v → 0 < n →
      calibrateReadings (List.replicate n v) = some v) := by
  constructor
  · intro l hl
    constructor
    · apply List.filter_congr
      intro x hx
      have h0 := hl x hx
      apply decide_eq_decide.mpr
      constructor
      · intro h; exact (ne_of_gt h)
      · intro h; exact lt_of_le_of_ne h0 (Ne.symm h)
    · intro hne
      rw [calibrateReadings]
      simp only [List.isEmpty_iff]
      rw [if_neg hne]
  · intro v n hv hn
    have hr := retainedReadings_replicate hv n
    rw [calibrateReadings]
    simp only [hr, List.isEmpty_iff]
    rw [if_neg (List.ne_nil_of_length_pos (by simpa using hn))]
    congr 1
    rw [List.sum_replicate, List.length_replicate, nsmul_eq_mul]
    have hn0 : ((n : ℚ)) ≠ 0 := by positivity
    field_simp

theorem calibration_mean_witness :
    calibrateReadings (List.replicate 5 (42 : ℚ)) = some 42 ∧
    retainedReadings [(0 : ℚ), 3] =
      [(0 : ℚ), 3].filter (fun x => decide (x ≠ 0)) :=
  ⟨calibration_mean.2 42 5 (by norm_num) (by norm_num),
   (calibration_mean.1 [0, 3] (by intro x hx; fin_cases hx <;> norm_num)).1⟩

/-- Claim C8: calibration signals failure (None, distinct from every
numeric result) in exactly two situations — the input stream is not
open, in which case the outcome is independent of the readings (nothing
is collected), or no nonzero readings were retained — and on every
path, failure included, it leaves the alarm state unchanged. -/
theorem calibration_failure (o : Bool) (l : List ℚ) (s : AlarmState) :
    ((calculate_ambient_noise o l s).1 = none ↔
      o = false ∨ retainedReadings l = []) ∧
    (calculate_ambient_noise o l s).2 = s ∧
    (∀ l2 : List ℚ, calculate_ambient_noise false l s = calculate_ambient_noise false l2 s) := by
  refine ⟨?_, ?_, ?_⟩
  · cases o with
    | false => simp [calculate_ambient_noise]
    | true =>
      simp only [calculate_ambient_noise, if_pos]
      rw [calibrateReadings]
      by_cases hv : retainedReadings l = []
      · simp [hv]
      · simp [hv, List.isEmpty_iff]
  · cases o <;> simp [calculate_ambient_noise]
  · intro l2; simp [calculate_ambient_noise]

lemma decodeInt16_replicate_zero (n : ℕ) :
    decodeInt16 (List.replicate (2 * n) 0) = List.replicate n 0 := by
  induction n with
  | zero => simp [decodeInt16]
  | succ k ih =>
    have h2 : 2 * (k + 1) = (2 * k) + 1 + 1 := by ring
    rw [h2, List.replicate_succ, List.replicate_succ]
    rw [decodeInt16]
    rw [ih]
    simp [toInt16, List.replicate_succ]

/-- Claim C9, counterexample: the two-byte buffer [0, 0] is far shorter
than the expected chunk (1024 frames = 2048 bytes), yet the estimator
does not report a read error: its byte length is even, so frombuffer
succeeds and the buffer is processed as one sample. -/
theorem short_even_buffer_no_error :
    ([0, 0] : List ℕ).length < 2 * chunk_size ∧ (getDbLevel [0, 0]).2 = false := by
  constructor
  · norm_num [chunk_size]
  · rw [getDbLevel, if_pos (by norm_num)]

/-- Claim C9, amended: the estimator performs no chunk-length check: a
buffer whose byte length is odd fails inside frombuffer and is treated
as a read error (returns 0 with the error reported), while a buffer of
any even byte length — shorter than the chunk included — is processed
normally, returning the dB value computed from the partial data (0
without error for all-zero bytes). -/
theorem getDbLevel_length_rule :
    (∀ data : List ℕ, data.length % 2 ≠ 0 → getDbLevel data = (0, true)) ∧
    (∀ data : List ℕ, data.length % 2 = 0 →
      getDbLevel data = (estimate (decodeInt16 data), false)) ∧
    (∀ n : ℕ, getDbLevel (List.replicate (2 * n) 0) = (0, false)) := by
  refine ⟨?_, ?_, ?_⟩
  · intro data h; rw [getDbLevel, if_neg h]
  · intro data h; rw [getDbLevel, if_pos h]
  · intro n
    rw [getDbLevel, if_pos (by simp [List.length_replicate, Nat.mul_mod_right])]
    rw [decodeInt16_replicate_zero]
    have hss : squareSum (List.replicate n (0 : ℤ)) ≤ 0 := by
      rcases Nat.eq_zero_or_pos n with rfl | hn
      · simp [squareSum_nil]
      · have : ∀ x ∈ List.replicate n (0 : ℤ), x = 0 := fun x hx => List.eq_of_mem_replicate hx
        have hmap : (List.replicate n (0 : ℤ)).map wrapSquare = List.replicate n 0 := by
          apply List.eq_replicate_iff.mpr
          refine ⟨by simp, ?_⟩
          intro b hb
          obtain ⟨x, hx, rfl⟩ := List.mem_map.mp hb
          rw [List.eq_of_mem_replicate hx]
          decide
        rw [squareSum, hmap, List.sum_replicate]
        simp
    rw [estimate_of_nonpos hss]

theorem getDbLevel_length_rule_witness :
    getDbLevel [1, 2, 3] = (0, true) ∧
    getDbLevel [0, 1] = (estimate (decodeInt16 [0, 1]), false) :=
  ⟨getDbLevel_length_rule.1 [1, 2, 3] (by norm_num),
   getDbLevel_length_rule.2.1 [0, 1] (by norm_num)⟩

end SoundAlarm
